import Mathlib

/-!
Verification of the Bartender recipe/ingredient core.

The embedding covers:
* the pure availability engine of `src/App.tsx` (`canMakeRecipe`,
  `useRecipeFilter`, `availableSuggestions`);
* the Express/PostgreSQL persistence service of the server file
  (`POST /api/ingredients`, `GET /api/recipes`, `POST /api/recipes`,
  `DELETE /api/recipes/:id`), modelled as pure state transformers on a
  `DB` value with an explicit failure oracle for storage errors, where
  the `BEGIN`/`COMMIT`/`ROLLBACK` transaction discipline of the code is
  rendered as: queries act on a pending copy of the database, `COMMIT`
  installs it, any caught error returns the original database.

JavaScript string operations are modelled over `String.data : List Char`
so that every definition evaluates by kernel reduction:
`toLowerCase`/SQL `LOWER` as `jsToLower`, `trim` as `jsTrim`,
`split(" ")` as `jsSplitSpace`, `includes` as `jsIncludes`.
-/

/-- Model of JavaScript `String.prototype.toLowerCase` (and SQL `LOWER`):
lower-case every character. -/
def jsToLower (s : String) : String :=
  ⟨s.data.map Char.toLower⟩

/-- Drop whitespace characters from the front of a character list. -/
def trimLeftList (l : List Char) : List Char :=
  l.dropWhile Char.isWhitespace

/-- Model of JavaScript `String.prototype.trim`: drop whitespace from both
ends. -/
def jsTrim (s : String) : String :=
  ⟨((trimLeftList s.data).reverse.dropWhile Char.isWhitespace).reverse⟩

/-- Split a character list at every occurrence of the separator character,
keeping empty segments, as JavaScript `split(sep)` does. -/
def splitOnCharAux (sep : Char) : List Char → List Char → List (List Char)
  | [], cur => [cur.reverse]
  | c :: rest, cur =>
      if c = sep then cur.reverse :: splitOnCharAux sep rest []
      else splitOnCharAux sep rest (c :: cur)

/-- Model of JavaScript `String.prototype.split(" ")`. -/
def jsSplitSpace (s : String) : List String :=
  (splitOnCharAux ' ' s.data []).map (fun l => ⟨l⟩)

/-- Join a list of strings with single spaces, as `Array.prototype.join(" ")`. -/
def joinSpace : List String → String
  | [] => ""
  | [s] => s
  | s :: rest => s ++ " " ++ joinSpace rest

/-- Boolean prefix test on character lists. -/
def listIsPrefixOf : List Char → List Char → Bool
  | [], _ => true
  | _ :: _, [] => false
  | a :: as, b :: bs => a = b && listIsPrefixOf as bs

/-- Model of JavaScript `String.prototype.includes`: substring containment. -/
def jsIncludes (haystack needle : String) : Bool :=
  go haystack.data
where
  go : List Char → Bool
    | [] => needle.data.isEmpty
    | l@(_ :: rest) => listIsPrefixOf needle.data l || go rest

-- Client-side data model (`src/App.tsx`).

/-- `type Ingredient = { id: string; name: string }` -/
structure Ingredient where
  id : String
  name : String
deriving Repr, DecidableEq

/-- `type RecipeIngredient = { name: string; quantity: string; unit: string }` -/
structure RecipeIngredient where
  name : String
  quantity : String
  unit : String
deriving Repr, DecidableEq

/-- `type Recipe = { id; name; ingredients; instructions; isCustom }` -/
structure Recipe where
  id : String
  name : String
  ingredients : List RecipeIngredient
  instructions : String
  isCustom : Bool
deriving Repr, DecidableEq, Inhabited

/-- The pre-populated `STANDARD_RECIPES` constant of `src/App.tsx`. -/
def STANDARD_RECIPES : List Recipe :=
  [ { id := "1"
      name := "Margarita"
      isCustom := false
      ingredients :=
        [ { name := "Tequila", quantity := "2", unit := "oz" },
          { name := "Lime Juice", quantity := "1", unit := "oz" },
          { name := "Triple Sec", quantity := "1", unit := "oz" } ]
      instructions := "Shake with ice and strain into a salt-rimmed glass." },
    { id := "2"
      name := "Old Fashioned"
      isCustom := false
      ingredients :=
        [ { name := "Bourbon", quantity := "2", unit := "oz" },
          { name := "Simple Syrup", quantity := "0.5", unit := "oz" },
          { name := "Angostura Bitters", quantity := "2", unit := "dashes" } ]
      instructions := "Stir with ice and strain into a rocks glass." } ]

/-- `canMakeRecipe` from `useRecipeFilter` in `src/App.tsx`: every recipe
ingredient name, lower-cased, occurs among the lower-cased inventory names. -/
def canMakeRecipe (ingredients : List Ingredient) (recipe : Recipe) : Bool :=
  let ingredientNames := ingredients.map (fun i => jsToLower i.name)
  recipe.ingredients.all (fun ri => ingredientNames.contains (jsToLower ri.name))

/-- The filtering pipeline returned by `useRecipeFilter` in `src/App.tsx`:
first the name-search filter (when the search string is non-empty, i.e.
truthy), then the makeability filter (when `showMakeable` is set). -/
def useRecipeFilter (recipes : List Recipe) (ingredients : List Ingredient)
    (search : String) (showMakeable : Bool) : List Recipe :=
  let filtered := recipes
  let filtered :=
    if search ≠ "" then
      filtered.filter (fun r => jsIncludes (jsToLower r.name) (jsToLower search))
    else filtered
  let filtered :=
    if showMakeable then filtered.filter (canMakeRecipe ingredients)
    else filtered
  filtered

/-- The same two filters applied in the opposite order (makeability first,
then name search); used to state that the pipeline order is immaterial. -/
def useRecipeFilterSwapped (recipes : List Recipe) (ingredients : List Ingredient)
    (search : String) (showMakeable : Bool) : List Recipe :=
  let filtered := recipes
  let filtered :=
    if showMakeable then filtered.filter (canMakeRecipe ingredients)
    else filtered
  let filtered :=
    if search ≠ "" then
      filtered.filter (fun r => jsIncludes (jsToLower r.name) (jsToLower search))
    else filtered
  filtered

-- Quick-add suggestion derivation (`availableSuggestions` in `src/App.tsx`).

/-- One word of the title-case normalization: first character upper-cased,
the rest lower-cased (`charAt(0).toUpperCase() + slice(1).toLowerCase()`). -/
def capitalizeWord (w : String) : String :=
  match w.data with
  | [] => ""
  | c :: cs => ⟨c.toUpper :: cs.map Char.toLower⟩

/-- The normalization applied to each recipe-ingredient name in
`availableSuggestions`: trim, split on single spaces, capitalize each word,
re-join with spaces. -/
def normalizeName (s : String) : String :=
  joinSpace ((jsSplitSpace (jsTrim s)).map capitalizeWord)

/-- One insertion into the model of a JavaScript `Set` of strings: append the
element unless it is already present (sets keep first-occurrence order). -/
def addUniq (acc : List String) (x : String) : List String :=
  if x ∈ acc then acc else acc ++ [x]

/-- Collect a list into a JavaScript-`Set`-like duplicate-free list, keeping
the first occurrence of each element. -/
def jsSetOfList (l : List String) : List String :=
  l.foldl addUniq []

/-- `availableSuggestions` from `src/App.tsx`, parametrized by the comparator
order `le` modelling `a.localeCompare(b) <= 0`: collect the normalized,
non-empty recipe-ingredient names of the standard and custom recipes into a
set, drop the ones already owned (case-insensitively), and sort. -/
def availableSuggestions (customRecipes : List Recipe)
    (ingredients : List Ingredient) (le : String → String → Bool) : List String :=
  let allRecipes := STANDARD_RECIPES ++ customRecipes
  let collected :=
    jsSetOfList (((allRecipes.map Recipe.ingredients).flatten.map
      (fun ing => normalizeName ing.name)).filter (fun s => s ≠ ""))
  let currentIngredientNames := ingredients.map (fun i => jsToLower i.name)
  let suggestions :=
    collected.filter (fun s => !(currentIngredientNames.contains (jsToLower s)))
  List.insertionSort (fun a b => le a b = true) suggestions

/-- Modelled from the spec: the suggestion list as the specification words it —
"the set of all distinct ingredient names appearing across all recipes,
normalized to title case, with names already present in the current ingredient
set removed (case-insensitive), sorted".  Unlike the code, it does not drop
names whose normalization is the empty string. -/
def specSuggestions (customRecipes : List Recipe)
    (ingredients : List Ingredient) (le : String → String → Bool) : List String :=
  let allRecipes := STANDARD_RECIPES ++ customRecipes
  let collected :=
    jsSetOfList ((allRecipes.map Recipe.ingredients).flatten.map
      (fun ing => normalizeName ing.name))
  let currentIngredientNames := ingredients.map (fun i => jsToLower i.name)
  let suggestions :=
    collected.filter (fun s => !(currentIngredientNames.contains (jsToLower s)))
  List.insertionSort (fun a b => le a b = true) suggestions

/-- A concrete computable string order used to instantiate the comparator at
concrete inputs (lexicographic on character lists). -/
def listCharLe : List Char → List Char → Bool
  | [], _ => true
  | _ :: _, [] => false
  | a :: as, b :: bs => if a = b then listCharLe as bs else decide (a < b)

/-- Concrete comparator on strings. -/
def demoLe (a b : String) : Bool := listCharLe a.data b.data

-- Server-side persistence model (Express + PostgreSQL server file).

/-- A row of the `ingredients` table (`id SERIAL`, `name` unique). -/
structure IngredientRow where
  id : Nat
  name : String
deriving Repr, DecidableEq

/-- A row of the `recipes` table. -/
structure RecipeRow where
  id : Nat
  name : String
  instructions : String
  isCustom : Bool
deriving Repr, DecidableEq

/-- A row of the `recipe_ingredients` table. -/
structure RecipeIngredientRow where
  id : Nat
  recipeId : Nat
  name : String
  quantity : String
  unit : String
deriving Repr, DecidableEq

/-- The persistent database state: the three tables, in insertion order, plus
the `SERIAL` counters. -/
structure DB where
  ingredients : List IngredientRow
  recipes : List RecipeRow
  recipeIngredients : List RecipeIngredientRow
  nextIngredientId : Nat
  nextRecipeId : Nat
  nextRecipeIngredientId : Nat
deriving Repr, DecidableEq

/-- The failure oracle for storage errors: `fail k = true` means the `k`-th
query of the call throws.  `noFail` is the error-free execution. -/
def noFail : Nat → Bool := fun _ => false

/-- Outcome of `POST /api/ingredients`. -/
inductive AddIngredientResult where
  | badRequest
  | duplicate
  | serverError
  | created (ingredient : IngredientRow)
deriving Repr, DecidableEq

/-- `POST /api/ingredients`: reject a name that is empty after trimming (400);
look for an existing row with the same `LOWER`ed trimmed name (409); otherwise
insert the trimmed name and return the new row (201).  Query 0 is the duplicate
`SELECT`, query 1 the `INSERT`; a thrown query yields a 500 with no state
change. -/
def addIngredient (db : DB) (name : String) (fail : Nat → Bool) :
    DB × AddIngredientResult :=
  if jsTrim name = "" then (db, .badRequest)
  else if fail 0 then (db, .serverError)
  else if db.ingredients.any
      (fun i => jsToLower i.name = jsToLower (jsTrim name)) then
    (db, .duplicate)
  else if fail 1 then (db, .serverError)
  else
    let row : IngredientRow := { id := db.nextIngredientId, name := jsTrim name }
    ({ db with
        ingredients := db.ingredients ++ [row]
        nextIngredientId := db.nextIngredientId + 1 },
     .created row)

/-- Request body of `POST /api/recipes`; a missing `unit` is `none`, the other
fields arrive as strings (the route's falsy checks only reject empty ones). -/
structure IngredientInput where
  name : String
  quantity : String
  unit : Option String
deriving Repr, DecidableEq

/-- `ing.unit?.trim() || ''`: a missing unit becomes the empty string,
otherwise the unit is trimmed. -/
def trimUnit : Option String → String
  | none => ""
  | some u => jsTrim u

/-- Request body of `POST /api/recipes`. -/
structure RecipeRequest where
  name : String
  instructions : String
  ingredients : List IngredientInput
deriving Repr, DecidableEq

/-- Outcome of `POST /api/recipes`. -/
inductive CreateRecipeResult where
  | badRequest (msg : String)
  | serverError
  | created (recipe : RecipeRow) (ingredients : List RecipeIngredient)
deriving Repr, DecidableEq

/-- One `recipe_ingredients` row as `POST /api/recipes` builds it: trimmed
name and quantity, unit defaulting to the empty string. -/
def mkRow (recipeId : Nat) (rowId : Nat) (ing : IngredientInput) :
    RecipeIngredientRow :=
  { id := rowId
    recipeId := recipeId
    name := jsTrim ing.name
    quantity := jsTrim ing.quantity
    unit := trimUnit ing.unit }

/-- The `INSERT INTO recipe_ingredients` loop of `POST /api/recipes`, acting on
the pending (uncommitted) database: query `k` inserts the `k - 1`-th
ingredient; a thrown query aborts the transaction (`none`). -/
def insertRecipeIngredients (recipeId : Nat) (fail : Nat → Bool) :
    Nat → DB → List IngredientInput → Option DB
  | _, pending, [] => some pending
  | k, pending, ing :: rest =>
      if fail k then none
      else
        insertRecipeIngredients recipeId fail (k + 1)
          { pending with
              recipeIngredients := pending.recipeIngredients ++
                [mkRow recipeId pending.nextRecipeIngredientId ing]
              nextRecipeIngredientId := pending.nextRecipeIngredientId + 1 }
          rest

/-- `POST /api/recipes`: validation rejects a falsy (empty) name or
instructions and any ingredient with a falsy name or quantity, before any
write; then, inside one transaction, query 0 inserts the recipe row, queries
`1 .. n` insert the `n` ingredient rows, and query `n + 1` is the `COMMIT` — a
throw anywhere rolls the pending writes back, leaving the database as it was.
On success the response carries the new row and the trimmed ingredient list. -/
def createRecipe (db : DB) (req : RecipeRequest) (fail : Nat → Bool) :
    DB × CreateRecipeResult :=
  if req.name = "" || req.instructions = "" then
    (db, .badRequest "Missing required recipe fields (name, instructions, ingredients array).")
  else if req.ingredients.any (fun ing => ing.name = "" || ing.quantity = "") then
    (db, .badRequest "Each ingredient must have a name and quantity.")
  else if fail 0 then (db, .serverError)
  else
    let newRecipe : RecipeRow :=
      { id := db.nextRecipeId
        name := jsTrim req.name
        instructions := jsTrim req.instructions
        isCustom := true }
    let pending :=
      { db with
          recipes := db.recipes ++ [newRecipe]
          nextRecipeId := db.nextRecipeId + 1 }
    match insertRecipeIngredients newRecipe.id fail 1 pending req.ingredients with
    | none => (db, .serverError)
    | some pending2 =>
        if fail (req.ingredients.length + 1) then (db, .serverError)
        else
          (pending2,
           .created newRecipe
             (req.ingredients.map (fun ing =>
               { name := jsTrim ing.name
                 quantity := jsTrim ing.quantity
                 unit := trimUnit ing.unit })))

/-- Outcome of `DELETE /api/recipes/:id`. -/
inductive DeleteRecipeResult where
  | notFound
  | forbidden
  | serverError
  | deleted (recipe : RecipeRow)
deriving Repr, DecidableEq

/-- `DELETE /api/recipes/:id`: inside one transaction, query 0 selects the
recipe's `is_custom` flag (absent row → 404, standard recipe → 403, both after
`ROLLBACK` with nothing written); query 1 deletes the recipe's
`recipe_ingredients` rows, query 2 deletes the recipe row (`RETURNING *`; a
zero row count would give a 404 and roll back), query 3 is the `COMMIT`.  A
throw anywhere rolls back to the original database. -/
def deleteRecipe (db : DB) (id : Nat) (fail : Nat → Bool) :
    DB × DeleteRecipeResult :=
  if fail 0 then (db, .serverError)
  else
    match db.recipes.find? (fun r => r.id = id) with
    | none => (db, .notFound)
    | some r =>
        if !r.isCustom then (db, .forbidden)
        else if fail 1 then (db, .serverError)
        else
          let pending :=
            { db with
                recipeIngredients :=
                  db.recipeIngredients.filter (fun ri => ri.recipeId ≠ id) }
          if fail 2 then (db, .serverError)
          else
            match pending.recipes.filter (fun r2 => r2.id = id) with
            | [] => (db, .notFound)
            | deletedRow :: _ =>
                let pending2 :=
                  { pending with
                      recipes := pending.recipes.filter (fun r2 => r2.id ≠ id) }
                if fail 3 then (db, .serverError)
                else (pending2, .deleted deletedRow)

/-- The nested response shape of `GET /api/recipes`: the recipe row's columns
with its `recipe_ingredients` rows' `name, quantity, unit` attached. -/
structure RecipeWithIngredients where
  id : Nat
  name : String
  instructions : String
  isCustom : Bool
  ingredients : List RecipeIngredient
deriving Repr, DecidableEq

/-- Attach to a recipe row its `recipe_ingredients` rows, in stored order
(`SELECT name, quantity, unit FROM recipe_ingredients WHERE recipe_id = $1`). -/
def attachIngredients (db : DB) (r : RecipeRow) : RecipeWithIngredients :=
  { id := r.id
    name := r.name
    instructions := r.instructions
    isCustom := r.isCustom
    ingredients :=
      (db.recipeIngredients.filter (fun ri => ri.recipeId = r.id)).map
        (fun ri => { name := ri.name, quantity := ri.quantity, unit := ri.unit }) }

/-- `GET /api/recipes`: `SELECT * FROM recipes WHERE is_custom = TRUE ORDER BY
name ASC` (the comparator `le` models the SQL collation), then each recipe gets
its ingredient rows attached.  The route reads no request parameter: only
custom recipes are ever returned. -/
def listRecipes (db : DB) (le : String → String → Bool) :
    List RecipeWithIngredients :=
  let rows :=
    List.insertionSort (fun a b => le a.name b.name = true)
      (db.recipes.filter (fun r => r.isCustom))
  rows.map (attachIngredients db)

/-- A sample database: one standard recipe with two ingredient rows, one
custom recipe with one ingredient row, one inventory ingredient. -/
def demoDB : DB :=
  { ingredients := [{ id := 1, name := "Gin" }]
    recipes :=
      [ { id := 1, name := "Margarita"
          instructions := "Shake.", isCustom := false },
        { id := 2, name := "Gin Fizz"
          instructions := "Stir.", isCustom := true } ]
    recipeIngredients :=
      [ { id := 1, recipeId := 1, name := "Tequila", quantity := "2", unit := "oz" },
        { id := 2, recipeId := 1, name := "Lime Juice", quantity := "1", unit := "oz" },
        { id := 3, recipeId := 2, name := "Gin", quantity := "2", unit := "oz" } ]
    nextIngredientId := 2
    nextRecipeId := 3
    nextRecipeIngredientId := 4 }

-- Remaining concrete data used by witnesses and counterexamples.

/-- The generated ingredient rows of a successful `POST /api/recipes` call:
one row per requested ingredient, referencing the new recipe, with trimmed
fields and consecutive serial ids. -/
def mkRows (rid : Nat) : Nat → List IngredientInput → List RecipeIngredientRow
  | _, [] => []
  | startId, ing :: rest => mkRow rid startId ing :: mkRows rid (startId + 1) rest

/-- A storage-failure oracle that throws on query 1 (the first
`recipe_ingredients` insert of `POST /api/recipes`). -/
def failSecondQuery : Nat → Bool := fun k => k == 1

/-- The trivial comparator, used to instantiate comparator hypotheses. -/
def leTrue : String → String → Bool := fun _ _ => true

/-- A custom recipe holding an ingredient whose name is all whitespace, so its
title-case normalization is the empty string. -/
def blankIngredientRecipe : Recipe :=
  { id := "99"
    name := "Mystery"
    ingredients := [{ name := " ", quantity := "1", unit := "" }]
    instructions := "Stir."
    isCustom := true }

/-- A well-formed creation request with untrimmed fields and a missing unit. -/
def mojitoReq : RecipeRequest :=
  { name := " Mojito "
    instructions := " Muddle mint. "
    ingredients :=
      [ { name := " Rum ", quantity := " 2 ", unit := some " oz " },
        { name := "Mint", quantity := "6", unit := none } ] }

/-- The recipe row inserted by `POST /api/recipes` (`INSERT INTO recipes
(name, instructions, is_custom) VALUES ($1, $2, TRUE) RETURNING *`). -/
def newRecipeRow (db : DB) (req : RecipeRequest) : RecipeRow :=
  { id := db.nextRecipeId
    name := jsTrim req.name
    instructions := jsTrim req.instructions
    isCustom := true }

-- Helper lemmas.

/-- Membership characterization of `canMakeRecipe`. -/
theorem canMakeRecipe_eq_true_iff (S : List Ingredient) (r : Recipe) :
    canMakeRecipe S r = true ↔
      ∀ ri ∈ r.ingredients, ∃ i ∈ S, jsToLower i.name = jsToLower ri.name := by
  simp [canMakeRecipe, List.all_eq_true, List.elem_iff, List.mem_map]

/-- C5: `canMakeRecipe` is true exactly when every recipe-ingredient name,
compared case-insensitively, occurs among the inventory names — quantities and
units play no role; with Tequila, Lime Juice and Triple Sec on hand the
Margarita (the first standard recipe) is makeable, and dropping Triple Sec
makes it not makeable. -/
theorem canMakeRecipe_correct :
    (∀ (S : List Ingredient) (r : Recipe),
        canMakeRecipe S r = true ↔
          ∀ ri ∈ r.ingredients, ∃ i ∈ S, jsToLower i.name = jsToLower ri.name)
    ∧ canMakeRecipe
        [⟨"1", "Tequila"⟩, ⟨"2", "Lime Juice"⟩, ⟨"3", "Triple Sec"⟩]
        (STANDARD_RECIPES[0]!) = true
    ∧ canMakeRecipe
        [⟨"1", "Tequila"⟩, ⟨"2", "Lime Juice"⟩]
        (STANDARD_RECIPES[0]!) = false :=
  ⟨canMakeRecipe_eq_true_iff, by decide, by decide⟩

/-- C6: `canMakeRecipe` is monotone in the ingredient set: enlarging the
inventory never makes a makeable recipe unmakeable. -/
theorem canMakeRecipe_monotone (r : Recipe) (S1 S2 : List Ingredient)
    (hsub : ∀ i ∈ S1, i ∈ S2) (h : canMakeRecipe S1 r = true) :
    canMakeRecipe S2 r = true := by
  rw [canMakeRecipe_eq_true_iff] at h ⊢
  intro ri hri
  obtain ⟨i, hi, hname⟩ := h ri hri
  exact ⟨i, hsub i hi, hname⟩

/-- Witness for C6 at a concrete inclusion of ingredient sets. -/
theorem canMakeRecipe_monotone_witness :
    (∀ i ∈ ([⟨"1", "Tequila"⟩, ⟨"2", "Lime Juice"⟩, ⟨"3", "Triple Sec"⟩] :
        List Ingredient),
      i ∈ ([⟨"1", "Tequila"⟩, ⟨"2", "Lime Juice"⟩, ⟨"3", "Triple Sec"⟩,
        ⟨"4", "Gin"⟩] : List Ingredient))
    ∧ canMakeRecipe
        [⟨"1", "Tequila"⟩, ⟨"2", "Lime Juice"⟩, ⟨"3", "Triple Sec"⟩,
          ⟨"4", "Gin"⟩]
        (STANDARD_RECIPES[0]!) = true :=
  ⟨by decide,
   canMakeRecipe_monotone (STANDARD_RECIPES[0]!)
     [⟨"1", "Tequila"⟩, ⟨"2", "Lime Juice"⟩, ⟨"3", "Triple Sec"⟩]
     [⟨"1", "Tequila"⟩, ⟨"2", "Lime Juice"⟩, ⟨"3", "Triple Sec"⟩, ⟨"4", "Gin"⟩]
     (by decide) (by decide)⟩

/-- C8: the search filter and the makeability filter of `useRecipeFilter`
commute — applying them in the opposite order yields the same result list on
every input. -/
theorem useRecipeFilter_order_irrelevant (recipes : List Recipe)
    (ingredients : List Ingredient) (search : String) (showMakeable : Bool) :
    useRecipeFilter recipes ingredients search showMakeable =
      useRecipeFilterSwapped recipes ingredients search showMakeable := by
  unfold useRecipeFilter useRecipeFilterSwapped
  cases showMakeable <;> by_cases hs : search = "" <;>
    simp [hs, List.filter_comm, Bool.and_comm]

/-- C10: `useRecipeFilter` always returns a sublist of its input (every output
recipe occurs in the input, unduplicated and unmodified, in the input order),
and with an empty search term and the makeability toggle off it returns the
input unchanged. -/
theorem useRecipeFilter_sublist (recipes : List Recipe)
    (ingredients : List Ingredient) (search : String) (showMakeable : Bool) :
    List.Sublist (useRecipeFilter recipes ingredients search showMakeable) recipes
    ∧ useRecipeFilter recipes ingredients "" false = recipes := by
  constructor
  · unfold useRecipeFilter
    cases showMakeable <;> by_cases hs : search = "" <;> simp [hs]
  · simp [useRecipeFilter]

/-- Folding `addUniq` collects exactly the elements of the accumulator and the
list. -/
theorem mem_foldl_addUniq (l : List String) :
    ∀ (acc : List String) (x : String),
      x ∈ l.foldl addUniq acc ↔ x ∈ acc ∨ x ∈ l := by
  induction l with
  | nil => simp
  | cons a l ih =>
      intro acc x
      simp only [List.foldl_cons, ih, addUniq]
      by_cases h : a ∈ acc
      · simp only [if_pos h, List.mem_cons]
        constructor
        · rintro (hx | hx)
          · exact Or.inl hx
          · exact Or.inr (Or.inr hx)
        · rintro (hx | hx | hx)
          · exact Or.inl hx
          · exact Or.inl (hx ▸ h)
          · exact Or.inr hx
      · simp only [if_neg h, List.mem_append, List.mem_singleton, List.mem_cons]
        tauto

/-- Folding `addUniq` preserves duplicate-freedom of the accumulator. -/
theorem nodup_foldl_addUniq (l : List String) :
    ∀ acc : List String, acc.Nodup → (l.foldl addUniq acc).Nodup := by
  induction l with
  | nil => intro acc hacc; simpa using hacc
  | cons a l ih =>
      intro acc hacc
      simp only [List.foldl_cons]
      apply ih
      unfold addUniq
      split
      · exact hacc
      · simp_all [List.nodup_append]

/-- `jsSetOfList` has the same members as its input list. -/
theorem mem_jsSetOfList (l : List String) (x : String) :
    x ∈ jsSetOfList l ↔ x ∈ l := by
  simp [jsSetOfList, mem_foldl_addUniq]

/-- `jsSetOfList` is duplicate-free. -/
theorem nodup_jsSetOfList (l : List String) : (jsSetOfList l).Nodup :=
  nodup_foldl_addUniq l [] List.nodup_nil

/-- The case-insensitive ownership test of `availableSuggestions`, as a
proposition. -/
theorem notOwned_iff (ingredients : List Ingredient) (s : String) :
    (!(List.map (fun i => jsToLower i.name) ingredients).contains (jsToLower s))
        = true ↔
      ∀ i ∈ ingredients, jsToLower i.name ≠ jsToLower s := by
  simp [List.elem_iff, List.mem_map]

/-- C7 (amended): `availableSuggestions` returns exactly the distinct
normalized recipe-ingredient names — title-case normalization being trim,
split on single spaces, first letter of each word upper-cased and the rest
lower-cased — that are non-empty (names normalizing to the empty string are
dropped) and not already owned under case-insensitive comparison; the output
is duplicate-free and sorted by the comparator order. -/
theorem availableSuggestions_correct (customRecipes : List Recipe)
    (ingredients : List Ingredient) (le : String → String → Bool)
    (htot : ∀ a b, le a b = true ∨ le b a = true)
    (htrans : ∀ a b c, le a b = true → le b c = true → le a c = true) :
    (∀ s, s ∈ availableSuggestions customRecipes ingredients le ↔
        (s ≠ ""
          ∧ (∃ r ∈ STANDARD_RECIPES ++ customRecipes,
              ∃ ing ∈ r.ingredients, normalizeName ing.name = s)
          ∧ ∀ i ∈ ingredients, jsToLower i.name ≠ jsToLower s))
    ∧ (availableSuggestions customRecipes ingredients le).Sorted
        (fun a b => le a b = true)
    ∧ (availableSuggestions customRecipes ingredients le).Nodup := by
  refine ⟨?_, ?_, ?_⟩
  · intro s
    simp only [availableSuggestions, List.mem_insertionSort, List.mem_filter,
      mem_jsSetOfList, List.mem_map, List.mem_flatten, notOwned_iff,
      decide_eq_true_eq]
    constructor
    · rintro ⟨⟨⟨ing, ⟨⟨l, ⟨r, hr, hl⟩, hing⟩, hname⟩⟩, hne⟩, hown⟩
      exact ⟨hne, ⟨r, hr, ing, hl ▸ hing, hname⟩, hown⟩
    · rintro ⟨hne, ⟨r, hr, ing, hing, hname⟩, hown⟩
      exact ⟨⟨⟨ing, ⟨⟨r.ingredients, ⟨r, hr, rfl⟩, hing⟩, hname⟩⟩, hne⟩, hown⟩
  · haveI : IsTotal String (fun a b : String => le a b = true) := ⟨htot⟩
    haveI : IsTrans String (fun a b : String => le a b = true) := ⟨htrans⟩
    simp only [availableSuggestions]
    exact List.sorted_insertionSort _ _
  · simp only [availableSuggestions]
    exact ((List.perm_insertionSort _ _).nodup_iff).mpr
      ((nodup_jsSetOfList _).filter _)

/-- Witness for C7: with inventory `["lime juice"]`, the suggestion list
excludes "Lime Juice" case-insensitively and still offers "Tequila". -/
theorem availableSuggestions_correct_witness :
    "Lime Juice" ∉ availableSuggestions [] [⟨"a", "lime juice"⟩] leTrue
    ∧ "Tequila" ∈ availableSuggestions [] [⟨"a", "lime juice"⟩] leTrue :=
  ⟨fun hm =>
      (by decide :
        ¬(("Lime Juice" : String) ≠ ""
          ∧ (∃ r ∈ STANDARD_RECIPES ++ [], ∃ ing ∈ r.ingredients,
              normalizeName ing.name = "Lime Juice")
          ∧ ∀ i ∈ [Ingredient.mk "a" "lime juice"],
              jsToLower i.name ≠ jsToLower "Lime Juice"))
      (((availableSuggestions_correct [] [⟨"a", "lime juice"⟩] leTrue
          (fun _ _ => Or.inl rfl) (fun _ _ _ _ _ => rfl)).1 "Lime Juice").mp hm),
   ((availableSuggestions_correct [] [⟨"a", "lime juice"⟩] leTrue
       (fun _ _ => Or.inl rfl) (fun _ _ _ _ _ => rfl)).1 "Tequila").mpr
     (by decide)⟩

/-- C7 counterexample: a custom recipe carries an all-whitespace ingredient
name, whose title-case normalization is the empty string; it is an unowned
normalized recipe-ingredient name, yet the code's suggestion list omits it,
diverging from the spec-worded derivation `specSuggestions`. -/
theorem availableSuggestions_counterexample :
    (∃ r ∈ STANDARD_RECIPES ++ [blankIngredientRecipe],
        ∃ ing ∈ r.ingredients, normalizeName ing.name = "")
    ∧ "" ∉ availableSuggestions [blankIngredientRecipe] [] demoLe
    ∧ "" ∈ specSuggestions [blankIngredientRecipe] [] demoLe
    ∧ availableSuggestions [blankIngredientRecipe] [] demoLe ≠
        specSuggestions [blankIngredientRecipe] [] demoLe :=
  ⟨by decide, by decide, by decide, by decide⟩

/-- C9 (amended): `GET /api/recipes` takes no filter — its result holds
exactly the custom recipes, each nesting its own `recipe_ingredients` rows
(name, quantity, unit) in stored order under the recipe. -/
theorem listRecipes_customOnly_nested (db : DB) (le : String → String → Bool) :
    (∀ x, x ∈ listRecipes db le ↔
        ∃ r ∈ db.recipes, r.isCustom = true ∧ x = attachIngredients db r)
    ∧ ∀ x ∈ listRecipes db le,
        x.isCustom = true
        ∧ x.ingredients =
            (db.recipeIngredients.filter (fun ri => ri.recipeId = x.id)).map
              (fun ri =>
                { name := ri.name, quantity := ri.quantity, unit := ri.unit }) := by
  have hmem : ∀ x, x ∈ listRecipes db le ↔
      ∃ r ∈ db.recipes, r.isCustom = true ∧ x = attachIngredients db r := by
    intro x
    simp only [listRecipes, List.mem_map, List.mem_insertionSort, List.mem_filter]
    constructor
    · rintro ⟨r, ⟨hr, hc⟩, rfl⟩
      exact ⟨r, hr, hc, rfl⟩
    · rintro ⟨r, hr, hc, rfl⟩
      exact ⟨r, ⟨hr, hc⟩, rfl⟩
  refine ⟨hmem, ?_⟩
  intro x hx
  obtain ⟨r, _, hc, rfl⟩ := (hmem x).mp hx
  exact ⟨hc, rfl⟩

/-- C9 counterexample: the route offers no way to list standard recipes — in
`demoDB` a standard recipe exists, yet the listing only ever carries the
custom recipe. -/
theorem listRecipes_counterexample :
    (∃ r ∈ demoDB.recipes, r.isCustom = false
        ∧ ∀ x ∈ listRecipes demoDB demoLe, x.id ≠ r.id)
    ∧ (listRecipes demoDB demoLe).map RecipeWithIngredients.id = [2] :=
  ⟨by decide, by decide⟩

/-- With no storage failure, the ingredient-insert loop of `POST /api/recipes`
appends exactly the `mkRows` rows and advances the serial counter. -/
theorem insertRecipeIngredients_noFail (rid : Nat) :
    ∀ (ings : List IngredientInput) (k : Nat) (pending : DB),
      insertRecipeIngredients rid noFail k pending ings =
        some { pending with
                 recipeIngredients :=
                   pending.recipeIngredients ++
                     mkRows rid pending.nextRecipeIngredientId ings
                 nextRecipeIngredientId :=
                   pending.nextRecipeIngredientId + ings.length } := by
  intro ings
  induction ings with
  | nil => intro k pending; simp [insertRecipeIngredients, mkRows]
  | cons ing rest ih =>
      intro k pending
      simp only [insertRecipeIngredients, noFail, Bool.false_eq_true, if_false,
        ih, mkRows, Option.some.injEq, List.length_cons]
      congr 1
      · simp [List.append_assoc]
      · omega

/-- For an arbitrary failure oracle, the ingredient-insert loop either aborts
the transaction or appends one row per requested ingredient, every row
referencing the given recipe, leaving the other tables untouched. -/
theorem insertRecipeIngredients_cases (rid : Nat) (fail : Nat → Bool) :
    ∀ (ings : List IngredientInput) (k : Nat) (pending : DB),
      insertRecipeIngredients rid fail k pending ings = none
      ∨ ∃ rows, insertRecipeIngredients rid fail k pending ings =
            some { pending with
                     recipeIngredients := pending.recipeIngredients ++ rows
                     nextRecipeIngredientId :=
                       pending.nextRecipeIngredientId + rows.length }
          ∧ rows.length = ings.length
          ∧ ∀ row ∈ rows, row.recipeId = rid := by
  intro ings
  induction ings with
  | nil =>
      intro k pending
      refine Or.inr ⟨[], ?_, rfl, by simp⟩
      simp [insertRecipeIngredients]
  | cons ing rest ih =>
      intro k pending
      by_cases hf : fail k = true
      · exact Or.inl (by simp [insertRecipeIngredients, hf])
      · have hf' : fail k = false := by simpa using hf
        rcases ih (k + 1)
            { pending with
                recipeIngredients := pending.recipeIngredients ++
                  [mkRow rid pending.nextRecipeIngredientId ing]
                nextRecipeIngredientId := pending.nextRecipeIngredientId + 1 }
          with hnone | ⟨rows, hsome, hlen, hrid⟩
        · refine Or.inl ?_
          simp only [insertRecipeIngredients, hf', Bool.false_eq_true, if_false]
          exact hnone
        · refine Or.inr
            ⟨mkRow rid pending.nextRecipeIngredientId ing :: rows, ?_,
              by simpa using hlen, ?_⟩
          · simp only [insertRecipeIngredients, hf', Bool.false_eq_true, if_false]
            rw [hsome]
            simp [List.append_assoc, Nat.add_assoc, Nat.add_comm, Nat.add_left_comm]
          · intro row hrow
            rcases List.mem_cons.mp hrow with hrow | hrow
            · simp [hrow, mkRow]
            · exact hrid row hrow

/-- Every run of `POST /api/recipes` ends in one of three ways: a validation
400 with the database untouched, a rolled-back 500 with the database
untouched, or a committed creation appending the recipe row and one
ingredient row per requested ingredient. -/
theorem createRecipe_result_cases (db : DB) (req : RecipeRequest)
    (fail : Nat → Bool) :
    (∃ msg, createRecipe db req fail = (db, CreateRecipeResult.badRequest msg))
    ∨ createRecipe db req fail = (db, CreateRecipeResult.serverError)
    ∨ ∃ rows, rows.length = req.ingredients.length
        ∧ (∀ row ∈ rows, row.recipeId = db.nextRecipeId)
        ∧ createRecipe db req fail =
            ({ db with
                 recipes := db.recipes ++ [newRecipeRow db req]
                 recipeIngredients := db.recipeIngredients ++ rows
                 nextRecipeId := db.nextRecipeId + 1
                 nextRecipeIngredientId :=
                   db.nextRecipeIngredientId + rows.length },
             CreateRecipeResult.created (newRecipeRow db req)
               (req.ingredients.map (fun ing =>
                 { name := jsTrim ing.name
                   quantity := jsTrim ing.quantity
                   unit := trimUnit ing.unit }))) := by
  simp only [createRecipe]
  split
  · exact Or.inl ⟨_, rfl⟩
  · split
    · exact Or.inl ⟨_, rfl⟩
    · split
      · exact Or.inr (Or.inl rfl)
      · split
        · exact Or.inr (Or.inl rfl)
        · next pending2 heq =>
            split
            · exact Or.inr (Or.inl rfl)
            · refine Or.inr (Or.inr ?_)
              obtain hres | ⟨rows, hres, hlen, hrid⟩ :=
                insertRecipeIngredients_cases db.nextRecipeId fail
                  req.ingredients 1
                  { db with
                      recipes := db.recipes ++ [newRecipeRow db req]
                      nextRecipeId := db.nextRecipeId + 1 }
              · exact absurd (hres ▸ heq) (by simp)
              · have hp : pending2 =
                    { db with
                        recipes := db.recipes ++ [newRecipeRow db req]
                        recipeIngredients := db.recipeIngredients ++ rows
                        nextRecipeId := db.nextRecipeId + 1
                        nextRecipeIngredientId :=
                          db.nextRecipeIngredientId + rows.length } := by
                  have h2 := heq.symm.trans hres
                  simpa using h2
                refine ⟨rows, hlen, hrid, ?_⟩
                rw [hp]
                simp [newRecipeRow]

/-- C1: `POST /api/recipes` is atomic — every failing call (validation 400 or
storage 500, at any point of the transaction) leaves the database exactly in
its prior state, and every successful call commits the new recipe row together
with one ingredient row per requested ingredient, all referencing the new
recipe, leaving the `ingredients` table untouched. -/
theorem createRecipe_atomic (db : DB) (req : RecipeRequest) (fail : Nat → Bool) :
    (((createRecipe db req fail).2 = CreateRecipeResult.serverError
        ∨ ∃ msg, (createRecipe db req fail).2 = CreateRecipeResult.badRequest msg) →
      (createRecipe db req fail).1 = db)
    ∧ ∀ r ris, (createRecipe db req fail).2 = CreateRecipeResult.created r ris →
        (createRecipe db req fail).1.recipes = db.recipes ++ [r]
        ∧ (createRecipe db req fail).1.ingredients = db.ingredients
        ∧ ∃ rows, (createRecipe db req fail).1.recipeIngredients =
              db.recipeIngredients ++ rows
            ∧ rows.length = req.ingredients.length
            ∧ ∀ row ∈ rows, row.recipeId = r.id := by
  obtain ⟨msg, heq⟩ | heq | ⟨rows, hlen, hrid, heq⟩ :=
    createRecipe_result_cases db req fail
  · rw [heq]
    exact ⟨fun _ => rfl, fun r ris hcr => by simp at hcr⟩
  · rw [heq]
    exact ⟨fun _ => rfl, fun r ris hcr => by simp at hcr⟩
  · rw [heq]
    refine ⟨fun hbad => ?_, fun r ris hcr => ?_⟩
    · rcases hbad with hbad | ⟨m, hbad⟩ <;> simp at hbad
    · simp only [CreateRecipeResult.created.injEq] at hcr
      obtain ⟨hr, -⟩ := hcr
      subst hr
      refine ⟨by simp, by simp, rows, by simp, hlen, ?_⟩
      intro row hrow
      simpa [newRecipeRow] using hrid row hrow

/-- Witness for C1: a storage failure on the first ingredient insert leaves
`demoDB` unchanged, and the same request without failures appends the recipe
row. -/
theorem createRecipe_atomic_witness :
    (createRecipe demoDB mojitoReq failSecondQuery).1 = demoDB
    ∧ (createRecipe demoDB mojitoReq noFail).1.recipes =
        demoDB.recipes ++
          [{ id := 3, name := "Mojito", instructions := "Muddle mint.",
             isCustom := true }] :=
  ⟨(createRecipe_atomic demoDB mojitoReq failSecondQuery).1 (Or.inl (by decide)),
   ((createRecipe_atomic demoDB mojitoReq noFail).2
      { id := 3, name := "Mojito", instructions := "Muddle mint.",
        isCustom := true }
      [{ name := "Rum", quantity := "2", unit := "oz" },
       { name := "Mint", quantity := "6", unit := "" }] (by decide)).1⟩

/-- C2 counterexample: a request whose name is a single space (empty after
trimming) and whose ingredient list is empty passes the route's falsy checks
and is persisted — no 400 is returned, contradicting the claim that validation
requires a trimmed non-empty name and a non-empty ingredient sequence. -/
theorem createRecipe_validation_counterexample :
    jsTrim " " = ""
    ∧ (createRecipe demoDB
        { name := " ", instructions := "x", ingredients := [] } noFail).2 =
      CreateRecipeResult.created
        { id := 3, name := "", instructions := "x", isCustom := true } [] :=
  ⟨by decide, by decide⟩

/-- C2 (amended): `POST /api/recipes` returns 400 exactly when the name or the
instructions is the empty string or some ingredient has an empty-string name
or quantity (whitespace-only fields pass, and an empty ingredient list is
accepted); otherwise, absent storage failure, it persists and returns the
recipe with its generated identifier, name, instructions and ingredient fields
trimmed, and a missing unit stored as the empty string. -/
theorem createRecipe_validation (db : DB) (req : RecipeRequest) :
    ((req.name = "" ∨ req.instructions = ""
        ∨ ∃ ing ∈ req.ingredients, ing.name = "" ∨ ing.quantity = "") ↔
      ∃ msg, (createRecipe db req noFail).2 = CreateRecipeResult.badRequest msg)
    ∧ (¬(req.name = "" ∨ req.instructions = ""
          ∨ ∃ ing ∈ req.ingredients, ing.name = "" ∨ ing.quantity = "") →
        createRecipe db req noFail =
          ({ db with
               recipes := db.recipes ++ [newRecipeRow db req]
               recipeIngredients := db.recipeIngredients ++
                 mkRows db.nextRecipeId db.nextRecipeIngredientId req.ingredients
               nextRecipeId := db.nextRecipeId + 1
               nextRecipeIngredientId :=
                 db.nextRecipeIngredientId + req.ingredients.length },
           CreateRecipeResult.created (newRecipeRow db req)
             (req.ingredients.map (fun ing =>
               { name := jsTrim ing.name
                 quantity := jsTrim ing.quantity
                 unit := trimUnit ing.unit })))) := by
  simp only [createRecipe, noFail, Bool.false_eq_true, if_false,
    insertRecipeIngredients_noFail]
  split
  · next h =>
      have hor : req.name = "" ∨ req.instructions = "" := by simpa using h
      constructor
      · exact ⟨fun _ => ⟨_, rfl⟩,
          fun _ => hor.elim Or.inl (fun h2 => Or.inr (Or.inl h2))⟩
      · intro hno
        exact absurd (hor.elim Or.inl (fun h2 => Or.inr (Or.inl h2))) hno
  · next h =>
      split
      · next h2 =>
          have hex : ∃ ing ∈ req.ingredients, ing.name = "" ∨ ing.quantity = "" := by
            simpa using h2
          constructor
          · exact ⟨fun _ => ⟨_, rfl⟩, fun _ => Or.inr (Or.inr hex)⟩
          · intro hno
            exact absurd (Or.inr (Or.inr hex)) hno
      · next h2 =>
          have hnot : ¬(req.name = "" ∨ req.instructions = ""
              ∨ ∃ ing ∈ req.ingredients, ing.name = "" ∨ ing.quantity = "") := by
            rintro (hh | hh | hh)
            · exact h (by simp [hh])
            · exact h (by simp [hh])
            · exact h2 (by simpa using hh)
          constructor
          · constructor
            · intro hval; exact absurd hval hnot
            · rintro ⟨msg, hmsg⟩
              simp at hmsg
          · intro _
            simp [newRecipeRow]

/-- Witness for C2 (amended): a well-formed request is persisted with trimmed
fields, generated id 3, and the missing unit stored as the empty string. -/
theorem createRecipe_validation_witness :
    ¬(mojitoReq.name = "" ∨ mojitoReq.instructions = ""
        ∨ ∃ ing ∈ mojitoReq.ingredients, ing.name = "" ∨ ing.quantity = "")
    ∧ (createRecipe demoDB mojitoReq noFail).2 =
        CreateRecipeResult.created
          { id := 3, name := "Mojito", instructions := "Muddle mint.",
            isCustom := true }
          [{ name := "Rum", quantity := "2", unit := "oz" },
           { name := "Mint", quantity := "6", unit := "" }] :=
  ⟨by decide,
   by rw [(createRecipe_validation demoDB mojitoReq).2 (by decide)]; decide⟩

/-- The row `find?` locates heads the corresponding `filter`. -/
theorem find?_head_filter {α : Type} (p : α → Bool) :
    ∀ (l : List α) (a : α), l.find? p = some a → ∃ t, l.filter p = a :: t := by
  intro l
  induction l with
  | nil => intro a h; simp at h
  | cons x xs ih =>
      intro a h
      by_cases hx : p x = true
      · rw [List.find?_cons_of_pos _ hx] at h
        obtain rfl := Option.some.inj h
        exact ⟨xs.filter p, by simp [List.filter_cons_of_pos, hx]⟩
      · have hx' : ¬p x = true := hx
        rw [List.find?_cons_of_neg _ hx'] at h
        obtain ⟨t, ht⟩ := ih a h
        exact ⟨t, by simp [List.filter_cons_of_neg, hx', ht]⟩

/-- C3: `DELETE /api/recipes/:id` 404s when no recipe has the id; 403s,
leaving every row unchanged, when the recipe is standard; otherwise, absent
storage failure, one transaction deletes all of the recipe's ingredient rows
(their count for that recipe drops to zero) and the recipe row itself and
returns the deleted row; a storage failure anywhere rolls back, leaving the
original state. -/
theorem deleteRecipe_spec (db : DB) (id : Nat) (fail : Nat → Bool) :
    (fail 0 = false → db.recipes.find? (fun r => r.id = id) = none →
        deleteRecipe db id fail = (db, DeleteRecipeResult.notFound))
    ∧ (∀ r, fail 0 = false →
        db.recipes.find? (fun r2 => r2.id = id) = some r → r.isCustom = false →
        deleteRecipe db id fail = (db, DeleteRecipeResult.forbidden))
    ∧ (∀ r, db.recipes.find? (fun r2 => r2.id = id) = some r →
        r.isCustom = true →
        deleteRecipe db id noFail =
          ({ db with
               recipes := db.recipes.filter (fun r2 => r2.id ≠ id)
               recipeIngredients :=
                 db.recipeIngredients.filter (fun ri => ri.recipeId ≠ id) },
           DeleteRecipeResult.deleted r)
        ∧ ((deleteRecipe db id noFail).1.recipeIngredients.filter
            (fun ri => ri.recipeId = id)).length = 0)
    ∧ ((deleteRecipe db id fail).2 = DeleteRecipeResult.serverError →
        (deleteRecipe db id fail).1 = db) := by
  refine ⟨?_, ?_, ?_, ?_⟩
  · intro h0 hnone
    simp [deleteRecipe, h0, hnone]
  · intro r h0 hsome hcust
    simp [deleteRecipe, h0, hsome, hcust]
  · intro r hsome hcust
    obtain ⟨t, ht⟩ := find?_head_filter (fun r2 => r2.id = id) db.recipes r hsome
    have heq : deleteRecipe db id noFail =
        ({ db with
             recipes := db.recipes.filter (fun r2 => r2.id ≠ id)
             recipeIngredients :=
               db.recipeIngredients.filter (fun ri => ri.recipeId ≠ id) },
         DeleteRecipeResult.deleted r) := by
      simp [deleteRecipe, noFail, hsome, hcust, ht]
    refine ⟨heq, ?_⟩
    rw [heq]
    apply List.length_eq_zero.mpr
    apply List.filter_eq_nil_iff.mpr
    intro a ha
    have h2 := (List.mem_filter.mp ha).2
    simpa using h2
  · simp only [deleteRecipe]
    split
    · intro _; rfl
    · split
      · intro _; rfl
      · split
        · intro _; rfl
        · split
          · intro _; rfl
          · split
            · intro _; rfl
            · split
              · intro _; rfl
              · split
                · intro _; rfl
                · intro h; simp at h

/-- Witness for C3 at the custom recipe of `demoDB`: the deletion removes the
recipe row and both facts about its ingredient rows hold. -/
theorem deleteRecipe_spec_witness :
    deleteRecipe demoDB 2 noFail =
      ({ demoDB with
           recipes := demoDB.recipes.filter (fun r2 => r2.id ≠ 2)
           recipeIngredients :=
             demoDB.recipeIngredients.filter (fun ri => ri.recipeId ≠ 2) },
       DeleteRecipeResult.deleted
         { id := 2, name := "Gin Fizz", instructions := "Stir.",
           isCustom := true })
    ∧ ((deleteRecipe demoDB 2 noFail).1.recipeIngredients.filter
        (fun ri => ri.recipeId = 2)).length = 0 :=
  (deleteRecipe_spec demoDB 2 noFail).2.2.1
    { id := 2, name := "Gin Fizz", instructions := "Stir.", isCustom := true }
    (by decide) (by decide)

/-- Lower-casing preserves emptiness of a string. -/
theorem jsToLower_eq_empty_iff (s : String) : jsToLower s = "" ↔ s = "" := by
  constructor
  · intro h
    have h2 : s.data.map Char.toLower = [] := congrArg String.data h
    have h3 : s.data = [] := by simpa using h2
    cases s
    simp_all
  · intro h
    rw [h]
    rfl

/-- `POST /api/ingredients` answers 409 and changes nothing when a stored name
matches the trimmed request name case-insensitively. -/
theorem addIngredient_duplicate (db : DB) (n : String)
    (h1 : jsTrim n ≠ "")
    (hdup : ∃ i ∈ db.ingredients, jsToLower i.name = jsToLower (jsTrim n)) :
    addIngredient db n noFail = (db, AddIngredientResult.duplicate) := by
  have hany : (db.ingredients.any fun i =>
      jsToLower i.name = jsToLower (jsTrim n)) = true := by
    simpa [List.any_eq_true] using hdup
  simp [addIngredient, h1, hany, noFail]

/-- `POST /api/ingredients` appends exactly one row with the trimmed name and
the next serial id when the name is valid and not yet present. -/
theorem addIngredient_inserts (db : DB) (n : String)
    (h1 : jsTrim n ≠ "")
    (hno : ∀ i ∈ db.ingredients, jsToLower i.name ≠ jsToLower (jsTrim n)) :
    addIngredient db n noFail =
      ({ db with
           ingredients := db.ingredients ++
             [{ id := db.nextIngredientId, name := jsTrim n }]
           nextIngredientId := db.nextIngredientId + 1 },
       AddIngredientResult.created { id := db.nextIngredientId, name := jsTrim n }) := by
  have hany : (db.ingredients.any fun i =>
      jsToLower i.name = jsToLower (jsTrim n)) = false := by
    rw [← Bool.not_eq_true]
    intro hc
    obtain ⟨i, hi, hlow⟩ := List.any_eq_true.mp hc
    exact hno i hi (by simpa using hlow)
  simp [addIngredient, h1, hany, noFail]

/-- C4: `POST /api/ingredients` 400s when the name trims to empty; 409s,
changing nothing, when a stored name matches the trimmed name under
case-insensitive comparison; otherwise persists exactly one ingredient with
the trimmed name and the assigned serial id and returns it — so two names that
agree after trimming and lower-casing, added sequentially, succeed exactly
once and the second call returns the duplicate error. -/
theorem addIngredient_spec (db : DB) (n : String) :
    (jsTrim n = "" →
      addIngredient db n noFail = (db, AddIngredientResult.badRequest))
    ∧ (jsTrim n ≠ "" →
        (∃ i ∈ db.ingredients, jsToLower i.name = jsToLower (jsTrim n)) →
        addIngredient db n noFail = (db, AddIngredientResult.duplicate))
    ∧ (jsTrim n ≠ "" →
        (∀ i ∈ db.ingredients, jsToLower i.name ≠ jsToLower (jsTrim n)) →
        addIngredient db n noFail =
          ({ db with
               ingredients := db.ingredients ++
                 [{ id := db.nextIngredientId, name := jsTrim n }]
               nextIngredientId := db.nextIngredientId + 1 },
           AddIngredientResult.created
             { id := db.nextIngredientId, name := jsTrim n }))
    ∧ ∀ n2, jsToLower (jsTrim n) = jsToLower (jsTrim n2) →
        jsTrim n ≠ "" →
        (∀ i ∈ db.ingredients, jsToLower i.name ≠ jsToLower (jsTrim n)) →
        (addIngredient db n noFail).2 =
          AddIngredientResult.created { id := db.nextIngredientId, name := jsTrim n }
        ∧ (addIngredient (addIngredient db n noFail).1 n2 noFail).2 =
            AddIngredientResult.duplicate := by
  refine ⟨?_, addIngredient_duplicate db n, addIngredient_inserts db n, ?_⟩
  · intro h
    simp [addIngredient, h]
  · intro n2 hlow h1 hno
    have hres := addIngredient_inserts db n h1 hno
    have h2ne : jsTrim n2 ≠ "" := by
      intro h0
      apply h1
      apply (jsToLower_eq_empty_iff (jsTrim n)).mp
      rw [hlow, h0]
      rfl
    have hdup2 : ∃ i ∈ db.ingredients ++
        ([{ id := db.nextIngredientId, name := jsTrim n }] : List IngredientRow),
        jsToLower i.name = jsToLower (jsTrim n2) :=
      ⟨{ id := db.nextIngredientId, name := jsTrim n }, by simp, hlow⟩
    constructor
    · rw [hres]
    · rw [hres]
      have hsecond := addIngredient_duplicate
        ({ db with
             ingredients := db.ingredients ++
               [{ id := db.nextIngredientId, name := jsTrim n }]
             nextIngredientId := db.nextIngredientId + 1 }) n2 h2ne
        (by simpa using hdup2)
      simp only [hsecond]

/-- Witness for C4: adding " lime " and then "LIME" to `demoDB` succeeds
exactly once, the second call answering the duplicate error. -/
theorem addIngredient_spec_witness :
    (addIngredient demoDB " lime " noFail).2 =
      AddIngredientResult.created { id := 2, name := "lime" }
    ∧ (addIngredient (addIngredient demoDB " lime " noFail).1 "LIME" noFail).2 =
        AddIngredientResult.duplicate :=
  (addIngredient_spec demoDB " lime ").2.2.2 "LIME" (by decide) (by decide)
    (by decide)

/-- Witness for C9 (amended): the custom recipe of `demoDB` is listed with its
nested ingredient rows, and everything listed is custom. -/
theorem listRecipes_customOnly_nested_witness :
    (attachIngredients demoDB
        { id := 2, name := "Gin Fizz", instructions := "Stir.",
          isCustom := true })
      ∈ listRecipes demoDB demoLe
    ∧ ∀ x ∈ listRecipes demoDB demoLe, x.isCustom = true :=
  ⟨((listRecipes_customOnly_nested demoDB demoLe).1 _).mpr
      ⟨{ id := 2, name := "Gin Fizz", instructions := "Stir.",
         isCustom := true }, by decide, by decide, rfl⟩,
   fun x hx => ((listRecipes_customOnly_nested demoDB demoLe).2 x hx).1⟩
